import Mathlib

/-!
Shallow embedding of the Charlie Bull social-media core (queue, quota,
rate limiter, formatter, rotation selector, post-content generation) and
proofs of the specification's testable properties against it.

Conventions used throughout:
* JavaScript strings are modelled as Lean `String`s where only identity,
  equality and lexicographic comparison matter (ids, dates, keys), and as
  `List Char` where UTF-16 code-unit lengths matter (formatter / content
  budgets); every test input is ASCII, where the two notions of length agree.
* `Date.now()` / `Date` timestamps are epoch milliseconds, modelled as `Int`.
* A JavaScript `Map` is modelled as an association list with JS `Map.set`
  semantics (replace in place if the key exists, append otherwise).
* Methods that read the current clock take the relevant time value
  (`now`, `today`, `sevenDaysAgo`…) as an explicit parameter.
-/

namespace CharlieBull

/-! ## Data model (src/src/types/social.ts shapes, as used by the queue) -/

/-- Platform discriminator (`'bluesky' | 'x'`) as used by the queue. -/
inductive Platform where
  | bluesky
  | x
deriving DecidableEq, Repr

/-- `SocialInteraction` record from `types/social.ts`:
`{id, platform, type, authorHandle, authorId, content, postId, timestamp, processed}`. -/
structure SocialInteraction where
  id : String
  platform : Platform
  type : String
  authorHandle : String
  authorId : String
  content : String
  postId : String
  timestamp : Int
  processed : Bool
deriving DecidableEq, Repr

/-- `SocialReply` record: `{id, platform, replyToId, replyToHandle, content, timestamp, sent}`. -/
structure SocialReply where
  id : String
  platform : Platform
  replyToId : String
  replyToHandle : String
  content : String
  timestamp : Int
  sent : Bool
deriving DecidableEq, Repr

/-- `DailyQuota` record: `{date, postsCount, repliesCount, postsLimit, repliesLimit}`. -/
structure DailyQuota where
  date : String
  postsCount : Nat
  repliesCount : Nat
  postsLimit : Nat
  repliesLimit : Nat
deriving DecidableEq, Repr

/-! ## JS `Map` as an association list -/

/-- `Map.has(k)` on an association list. -/
def mapHas (k : String) (m : List (String × β)) : Bool :=
  m.any (fun e => e.1 = k)

/-- `Map.get(k)` on an association list. -/
def mapGet (k : String) (m : List (String × β)) : Option β :=
  (m.find? (fun e => e.1 = k)).map (·.2)

/-- `Map.set(k, v)`: replace the entry in place when the key is present,
append a fresh entry otherwise. -/
def mapSet (k : String) (v : β) (m : List (String × β)) : List (String × β) :=
  if mapHas k m then m.map (fun e => if e.1 = k then (k, v) else e)
  else m ++ [(k, v)]

theorem mapGet_map_overwrite (k : String) (v : β) (m : List (String × β))
    (h : mapHas k m = true) :
    mapGet k (m.map (fun e => if e.1 = k then (k, v) else e)) = some v := by
  induction m with
  | nil => simp [mapHas] at h
  | cons a t ih =>
    by_cases hak : a.1 = k
    · simp [mapGet, hak, List.find?]
    · have ht : mapHas k t = true := by
        simpa [mapHas, hak] using h
      simp only [List.map_cons, if_neg hak]
      have := ih ht
      simpa [mapGet, List.find?, hak] using this

theorem mapGet_mapSet (k : String) (v : β) (m : List (String × β)) :
    mapGet k (mapSet k v m) = some v := by
  unfold mapSet
  split
  · next h => exact mapGet_map_overwrite k v m h
  · next h =>
    unfold mapGet
    rw [List.find?_append]
    have hnone : m.find? (fun e => decide (e.1 = k)) = none := by
      unfold mapHas at h
      simp only [Bool.not_eq_true, List.any_eq_false, decide_eq_true_eq] at h
      exact List.find?_eq_none.mpr (by intro e he; simpa using h e he)
    simp [hnone, List.find?]

/-! ## SocialMediaQueue (src/src/services/socialMediaQueue.ts) -/

/-- `PLATFORM_LIMITS` constant from `socialMediaQueue.ts` (posts/replies per scope). -/
structure ScopeLimits where
  posts : Nat
  replies : Nat
deriving DecidableEq, Repr

/-- `PLATFORM_LIMITS.bluesky = { posts: 10, replies: 20 }`. -/
def PLATFORM_LIMITS_bluesky : ScopeLimits := { posts := 10, replies := 20 }

/-- `PLATFORM_LIMITS.x = { posts: 1, replies: 2 }`. -/
def PLATFORM_LIMITS_x : ScopeLimits := { posts := 1, replies := 2 }

/-- `PLATFORM_LIMITS.global = { posts: 2, replies: 2 }`. -/
def PLATFORM_LIMITS_global : ScopeLimits := { posts := 2, replies := 2 }

/-- Per-day platform reply counters (`{ bluesky: number; x: number }`). -/
structure ReplyCounts where
  bluesky : Nat
  x : Nat
deriving DecidableEq, Repr

/-- Mutable state of the `SocialMediaQueue` class. -/
structure QueueState where
  pendingInteractions : List SocialInteraction
  pendingPosts : List String
  sentReplies : List SocialReply
  dailyQuotas : List (String × DailyQuota)
  platformReplyCounts : List (String × ReplyCounts)
deriving Repr

/-- Queue state at construction time (all stores empty, before
`initializeDailyQuota`). -/
def QueueState.empty : QueueState :=
  { pendingInteractions := []
    pendingPosts := []
    sentReplies := []
    dailyQuotas := []
    platformReplyCounts := [] }

/-- `initializeDailyQuota()`: lazily create today's quota record and platform
reply counters when absent.  `today` stands for `getTodayString()`. -/
def initializeDailyQuota (today : String) (s : QueueState) : QueueState :=
  let s :=
    if mapHas today s.dailyQuotas then s
    else
      { s with
        dailyQuotas :=
          mapSet today
            { date := today
              postsCount := 0
              repliesCount := 0
              postsLimit := PLATFORM_LIMITS_global.posts
              repliesLimit := PLATFORM_LIMITS_global.replies } s.dailyQuotas }
  if mapHas today s.platformReplyCounts then s
  else
    { s with
      platformReplyCounts := mapSet today { bluesky := 0, x := 0 } s.platformReplyCounts }

/-- `getDailyQuota()`: initialize today's record if absent, then return it.
The source's trailing `!` assertion is modelled with a default that is never
reached after initialization. -/
def getDailyQuota (today : String) (s : QueueState) : DailyQuota × QueueState :=
  let s := initializeDailyQuota today s
  ((mapGet today s.dailyQuotas).getD
    { date := today, postsCount := 0, repliesCount := 0, postsLimit := 0, repliesLimit := 0 },
   s)

/-- `canPost()`: today's global posts count is strictly below the limit. -/
def canPost (today : String) (s : QueueState) : Bool :=
  let quota := (getDailyQuota today s).1
  quota.postsCount < quota.postsLimit

/-- `resetDailyQuota()`: overwrite today's quota with zero counts and the
configured global limits, and reset platform reply counters. -/
def resetDailyQuota (today : String) (s : QueueState) : QueueState :=
  { s with
    dailyQuotas :=
      mapSet today
        { date := today
          postsCount := 0
          repliesCount := 0
          postsLimit := PLATFORM_LIMITS_global.posts
          repliesLimit := PLATFORM_LIMITS_global.replies } s.dailyQuotas
    platformReplyCounts := mapSet today { bluesky := 0, x := 0 } s.platformReplyCounts }

/-- `addPendingInteraction(interaction)`: append unless an entry with the same
id already exists. -/
def addPendingInteraction (i : SocialInteraction) (s : QueueState) : QueueState :=
  let exists_ := s.pendingInteractions.any (fun j => j.id = i.id)
  if exists_ then s
  else { s with pendingInteractions := s.pendingInteractions ++ [i] }

/-- `markInteractionProcessed(interactionId)`: `find` the first entry with the
given id and flip its `processed` flag; a silent no-op when absent. -/
def markProcessedList (interactionId : String) :
    List SocialInteraction → List SocialInteraction
  | [] => []
  | i :: rest =>
    if i.id = interactionId then { i with processed := true } :: rest
    else i :: markProcessedList interactionId rest

/-- `markInteractionProcessed` lifted to the queue state. -/
def markInteractionProcessed (interactionId : String) (s : QueueState) : QueueState :=
  { s with pendingInteractions := markProcessedList interactionId s.pendingInteractions }

/-- `cleanup()`: drop quota records dated strictly before the cutoff date,
pending interactions that are processed and not newer than `sevenDaysAgo`,
and sent replies not newer than `sevenDaysAgo`.  `sevenDaysAgo` is the
epoch-milliseconds timestamp seven days before now, and `cutoffDate` its
`YYYY-MM-DD` rendering, both read from the clock in the source. -/
def cleanup (sevenDaysAgo : Int) (cutoffDate : String) (s : QueueState) : QueueState :=
  { s with
    dailyQuotas := s.dailyQuotas.filter (fun e => ¬ e.1 < cutoffDate)
    pendingInteractions :=
      s.pendingInteractions.filter (fun i => !i.processed || sevenDaysAgo < i.timestamp)
    sentReplies := s.sentReplies.filter (fun r => sevenDaysAgo < r.timestamp) }

/-! ## SlidingWindowRateLimiter (src/src/services/rateLimiter.ts) -/

/-- Constructor arguments of `SlidingWindowRateLimiter`. -/
structure RateLimiterConfig where
  perKeyLimit : Nat
  globalLimit : Nat
  windowMs : Int
deriving Repr

/-- Mutable state of the limiter: `perKey` record per key plus the `global`
record.  A key absent from the JS map is a key mapped to the empty list. -/
structure RateLimiterState where
  perKey : String → List Int
  global : List Int

/-- Fresh limiter (`perKey = new Map()`, `global = { timestamps: [] }`). -/
def RateLimiterState.empty : RateLimiterState :=
  { perKey := fun _ => [], global := [] }

/-- Body of the `while (… timestamps[0] < cutoff) shift()` loop: drop the
leading timestamps strictly below the cutoff. -/
def evictList (cutoff : Int) (l : List Int) : List Int :=
  l.dropWhile (fun t => t < cutoff)

/-- `evict(now)`: evict per-key and global timestamps older than
`now - windowMs`. -/
def evict (cfg : RateLimiterConfig) (now : Int) (s : RateLimiterState) : RateLimiterState :=
  { perKey := fun k => evictList (now - cfg.windowMs) (s.perKey k)
    global := evictList (now - cfg.windowMs) s.global }

/-- `Math.ceil(x / 1000)` on an integer millisecond quantity. -/
def ceilDiv1000 (x : Int) : Int := -((-x).fdiv 1000)

/-- Result record of `attempt`: `{allowed, retryAfter?, global?}`, with the
optional `global` flag read as `false` when absent. -/
structure AttemptResult where
  allowed : Bool
  retryAfter : Option Int
  isGlobal : Bool
deriving DecidableEq, Repr

/-- `attempt(key)` at clock value `now`: evict, reject when the per-key or the
global sequence is full, otherwise record `now` in both sequences.  (The
source's `rec` local is the evicted per-key record, written out here.) -/
def attempt (cfg : RateLimiterConfig) (key : String) (now : Int) (s : RateLimiterState) :
    AttemptResult × RateLimiterState :=
  if cfg.perKeyLimit ≤ ((evict cfg now s).perKey key).length then
    ({ allowed := false
       retryAfter :=
         some (ceilDiv1000 (cfg.windowMs - (now - ((evict cfg now s).perKey key).headD 0)))
       isGlobal := false }, evict cfg now s)
  else if cfg.globalLimit ≤ (evict cfg now s).global.length then
    ({ allowed := false
       retryAfter :=
         some (ceilDiv1000 (cfg.windowMs - (now - (evict cfg now s).global.headD 0)))
       isGlobal := true }, evict cfg now s)
  else
    ({ allowed := true, retryAfter := none, isGlobal := false },
     { perKey := fun k =>
         if k = key then (evict cfg now s).perKey key ++ [now] else (evict cfg now s).perKey k
       global := (evict cfg now s).global ++ [now] })

/-- Run a sequence of `attempt` calls (`(key, now)` pairs) from the fresh
limiter, collecting final state and the sub-sequence of admitted calls. -/
def runLimiter (cfg : RateLimiterConfig) (events : List (String × Int)) :
    RateLimiterState × List (String × Int) :=
  events.foldl
    (fun acc e =>
      let r := attempt cfg e.1 e.2 acc.1
      (r.2, if r.1.allowed then acc.2 ++ [e] else acc.2))
    (RateLimiterState.empty, [])

/-- Event carries key `k` and a timestamp at least `c` (its admission still
counts against the window whose lower edge is `c`). -/
def inKeyCut (k : String) (c : Int) (e : String × Int) : Bool :=
  decide (e.1 = k) && decide (c ≤ e.2)

/-- Event timestamp is at least `c`. -/
def afterCut (c : Int) (e : String × Int) : Bool :=
  decide (c ≤ e.2)

/-- Event carries key `k` and a timestamp inside the closed window
`[t, t + w]`. -/
def inKeyWindow (k : String) (t w : Int) (e : String × Int) : Bool :=
  decide (e.1 = k) && decide (t ≤ e.2) && decide (e.2 ≤ t + w)

/-- Event timestamp lies inside the closed window `[t, t + w]`. -/
def inWindow (t w : Int) (e : String × Int) : Bool :=
  decide (t ≤ e.2) && decide (e.2 ≤ t + w)

/-! ## Platform-specific formatter (responseFormatter.ts)

JavaScript strings are modelled here as lists of UTF-16 code units
(`List Char`, one entry per code unit), because `string.length`,
`substring` and the regex scan all operate on code units. -/

/-- Whitespace class of the regex `[^\s]` (the code-unit members relevant to
the sources' inputs). -/
def isSpaceJS (c : Char) : Bool :=
  c = ' ' || c = '\t' || c = '\n' || c = '\r' || c = '\x0b' || c = '\x0c'

/-- Containment test (`String.prototype.includes`). -/
def hasSub (sub : List Char) : List Char → Bool
  | [] => sub.isEmpty
  | c :: rest => sub.isPrefixOf (c :: rest) || hasSub sub rest

/-- Scanner for the regex `/https?:\/\/[^\s]+/g`: at each position where
`https://` or `http://` starts and at least one non-space code unit follows
the scheme, the maximal non-space run is fed to the callback and scanning
resumes after it.  The `fuel` argument only bounds the number of scanning
steps so that the recursion is structural; every step consumes at least one
code unit, so fuel equal to the input length (as `replaceURLs` passes) never
runs out. -/
def replaceURLsGo (repl : List Char → List Char) : Nat → List Char → List Char
  | _, [] => []
  | 0, _ :: _ => []
  | fuel + 1, c :: rest =>
    if "https://".toList.isPrefixOf (c :: rest) || "http://".toList.isPrefixOf (c :: rest) then
      let tok := (c :: rest).takeWhile (fun ch => !isSpaceJS ch)
      if (if "https://".toList.isPrefixOf (c :: rest) then 8 else 7) < tok.length then
        repl tok ++ replaceURLsGo repl fuel ((c :: rest).drop tok.length)
      else
        c :: replaceURLsGo repl fuel rest
    else
      c :: replaceURLsGo repl fuel rest

/-- Global replace of the regex `/https?:\/\/[^\s]+/g` over a whole string. -/
def replaceURLs (repl : List Char → List Char) (l : List Char) : List Char :=
  replaceURLsGo repl l.length l

/-- Replacement callback of `formatForX` (ordered `includes` checks). -/
def xUrlRepl (url : List Char) : List Char :=
  if hasSub "charliebull.art/docs".toList url then "our docs".toList
  else if hasSub "charliebull.art".toList url then "charliebull.art".toList
  else if hasSub "linktr.ee".toList url then "LinkTree (in bio)".toList
  else if hasSub "medium.com".toList url then "our Medium blog".toList
  else if hasSub "x.com".toList url || hasSub "twitter.com".toList url then
    "@CharlieBullArt".toList
  else if hasSub "bsky.app".toList url then "Bluesky".toList
  else if hasSub "t.me".toList url then "our Telegram".toList
  else "our website".toList

/-- Replacement callback of `formatForBluesky`'s link-stripping branch. -/
def bskyUrlRepl (url : List Char) : List Char :=
  if hasSub "charliebull.art".toList url then "charliebull.art".toList
  else if hasSub "medium.com".toList url then "Medium".toList
  else "our website".toList

/-- `FormattedResponse` record `{text, includesLinks, characterCount}`. -/
structure FormattedResponse where
  text : List Char
  includesLinks : Bool
  characterCount : Nat
deriving DecidableEq, Repr

/-- `formatForX(content, includeLinks = false)`: substitute URLs, then
hard-truncate to 277 code units plus `'...'` when over 280.  The
`includeLinks` parameter is unused in the source body; call sites use the
default `false`. -/
def formatForX (content : List Char) (includeLinks : Bool) : FormattedResponse :=
  let text := replaceURLs xUrlRepl content
  let text := if 280 < text.length then text.take 277 ++ "...".toList else text
  { text := text, includesLinks := false, characterCount := text.length }

/-- `formatForBluesky(content, includeLinks = true)`: substitute URLs only
when `includeLinks` is false, then hard-truncate to 297 code units plus
`'...'` when over 300.  Call sites use the default `true`. -/
def formatForBluesky (content : List Char) (includeLinks : Bool) : FormattedResponse :=
  let text := if !includeLinks then replaceURLs bskyUrlRepl content else content
  let text := if 300 < text.length then text.take 297 ++ "...".toList else text
  { text := text, includesLinks := includeLinks, characterCount := text.length }

/-! ## Content rotation and post generation (socialMediaScheduler.ts) -/

/-- `POST_TOPICS` constant (14 topic categories). -/
def POST_TOPICS : List String :=
  ["chain_spotlight", "tokenomics_fact", "roadmap_tge", "roadmap_bull",
   "roadmap_nft", "bridge_tech", "same_contract", "why_base_l2",
   "community_airdrop", "defi_education", "market_perspective",
   "fun_personality", "chain_comparison", "bull_burn_event"]

/-- `POST_TYPES` constant (7 structural post styles). -/
def POST_TYPES : List String :=
  ["educational_fact", "opinion", "story", "announcement", "fun",
   "question", "comparison"]

/-- Entry of `recentPostLog`: `{topic, type, date}`. -/
structure PostLogEntry where
  topic : String
  type : String
  date : String
deriving DecidableEq, Repr

/-- JavaScript `array.slice(-n)`: the last `n` elements (all of them when the
array is shorter). -/
def sliceLast (n : Nat) (l : List α) : List α := l.drop (l.length - n)

/-- `selectTopic()`: exclude the topics of the last 5 logged posts, fall back
to the full topic set when the exclusion empties the pool, then pick the
index `⌊random * pool.length⌋`, modelled as `rand % pool.length` for an
arbitrary draw `rand`. -/
def selectTopic (recentPostLog : List PostLogEntry) (rand : Nat) : String :=
  let recentTopics := (sliceLast 5 recentPostLog).map (·.topic)
  let available := POST_TOPICS.filter (fun t => !recentTopics.contains t)
  let pool := if 0 < available.length then available else POST_TOPICS
  pool.getD (rand % pool.length) ""

/-- `selectPostType()`: same algorithm over `POST_TYPES` with a look-back of
the last 2 logged posts. -/
def selectPostType (recentPostLog : List PostLogEntry) (rand : Nat) : String :=
  let recentTypes := (sliceLast 2 recentPostLog).map (·.type)
  let available := POST_TYPES.filter (fun t => !recentTypes.contains t)
  let pool := if 0 < available.length then available else POST_TYPES
  pool.getD (rand % pool.length) ""

/-- `logPost(topic, type)`: push an entry, then `shift()` the oldest once the
log holds more than 14 entries. -/
def logPost (topic type date : String) (recentPostLog : List PostLogEntry) :
    List PostLogEntry :=
  let log := recentPostLog ++ [{ topic := topic, type := type, date := date }]
  if 14 < log.length then log.drop 1 else log

/-- Length of a Lean string in UTF-16 code units, the quantity JavaScript's
`string.length` reports (astral code points cost two units). -/
def jsLength (s : String) : Nat :=
  s.data.foldl (fun n c => n + (if 0x10000 ≤ c.toNat then 2 else 1)) 0

/-- Signature appended to every post (the source comments call it 31
characters; its UTF-16 length, which is what `signature.length` yields, is
32 because the two emoji are astral). -/
def signature : String := "\n\n- Charlie AI 🐾🐶 #CharlieBull"

/-- `maxContentChars = 300 - signature.length`. -/
def maxContentChars : Nat := 300 - jsLength signature

/-- `generatePostContent(timeOfDay, retryCount)`: select topic and type for
this attempt, obtain the generator's response (`gen retryCount`, a list of
code units), and when the response exceeds the budget retry up to twice;
`logPost` runs only when `retryCount === 0` falls through to the tail.
Randomness is supplied per attempt through `randT`/`randTy`.  Returns the
response text together with the updated `recentPostLog`. -/
def generatePostContent (gen : Nat → List Char) (randT randTy : Nat → Nat)
    (date : String) (recentPostLog : List PostLogEntry) (retryCount : Nat) :
    List Char × List PostLogEntry :=
  if maxContentChars < (gen retryCount).length then
    if h : retryCount < 2 then
      generatePostContent gen randT randTy date recentPostLog (retryCount + 1)
    else
      if retryCount = 0 then
        (gen retryCount,
         logPost (selectTopic recentPostLog (randT retryCount))
           (selectPostType recentPostLog (randTy retryCount)) date recentPostLog)
      else (gen retryCount, recentPostLog)
  else
    if retryCount = 0 then
      (gen retryCount,
       logPost (selectTopic recentPostLog (randT retryCount))
         (selectPostType recentPostLog (randTy retryCount)) date recentPostLog)
    else (gen retryCount, recentPostLog)
termination_by 2 - retryCount
decreasing_by omega

/-! ## Platform-scoped post quota (modelled from the spec)

`canPostOnPlatform` and the platform argument of `incrementPostCount` are
called by `createScheduledPost` in `socialMediaScheduler.ts` and by the
social routes, but no revision of `socialMediaQueue.ts` in the sources
defines them; the definitions below follow §4.4/§8 of the spec. -/

/-- Modelled from the spec: per-platform daily counters of the Daily Quota
Tracker (the missing platform-scoped part of `SocialMediaQueue`). -/
structure PlatformQuotaState where
  postsCount : Platform → Nat
  repliesCount : Platform → Nat

/-- Modelled from the spec: all counters zero (start of a day). -/
def PlatformQuotaState.fresh : PlatformQuotaState :=
  { postsCount := fun _ => 0, repliesCount := fun _ => 0 }

/-- Modelled from the spec: `canPostOnPlatform(platform)` is true iff today's
post count for the platform is strictly below the platform's post limit. -/
def canPostOnPlatform (postsLimit : Platform → Nat) (s : PlatformQuotaState)
    (p : Platform) : Bool :=
  s.postsCount p < postsLimit p

/-- Modelled from the spec: `incrementPostCount(platform)` increments that
platform's post counter. -/
def incrementPostCountOn (p : Platform) (s : PlatformQuotaState) : PlatformQuotaState :=
  { s with postsCount := fun q => if q = p then s.postsCount q + 1 else s.postsCount q }

/-- Modelled from the spec: `incrementReplyCount(platform)` increments that
platform's reply counter. -/
def incrementReplyCountOn (p : Platform) (s : PlatformQuotaState) : PlatformQuotaState :=
  { s with repliesCount := fun q => if q = p then s.repliesCount q + 1 else s.repliesCount q }

/-- Quota-mutating operations other than the daily reset. -/
inductive QuotaOp where
  | incPost (p : Platform)
  | incReply (p : Platform)

/-- Apply one quota operation. -/
def applyQuotaOp (op : QuotaOp) (s : PlatformQuotaState) : PlatformQuotaState :=
  match op with
  | .incPost p => incrementPostCountOn p s
  | .incReply p => incrementReplyCountOn p s

/-- Apply a sequence of quota operations in order. -/
def applyQuotaOps (ops : List QuotaOp) (s : PlatformQuotaState) : PlatformQuotaState :=
  ops.foldl (fun s op => applyQuotaOp op s) s

/-- Modelled from the spec: `resetDailyQuota()` zeroes all counters. -/
def resetPlatformQuota (_s : PlatformQuotaState) : PlatformQuotaState :=
  PlatformQuotaState.fresh

/-! ## Concrete fixtures used to instantiate the theorems below -/

/-- Sample unprocessed Bluesky mention. -/
def sampleInteraction : SocialInteraction :=
  { id := "x1", platform := .bluesky, type := "mention", authorHandle := "alice"
    authorId := "did:alice", content := "hi charlie", postId := "p1"
    timestamp := 1000, processed := false }

/-- Sample rotation-history entry. -/
def samplePostLogEntry : PostLogEntry :=
  { topic := "chain_spotlight", type := "opinion", date := "2026-01-01" }

/-- Sample per-platform post limits (Bluesky 2/day, X 1/day). -/
def witnessLimits : Platform → Nat
  | .bluesky => 2
  | .x => 1

/-! ## Queue lemmas -/

theorem mapHas_of_mapGet {k : String} {m : List (String × β)} {v : β}
    (h : mapGet k m = some v) : mapHas k m = true := by
  unfold mapGet at h
  cases hf : m.find? (fun e => decide (e.1 = k)) with
  | none => rw [hf] at h; simp at h
  | some e =>
    have hp := List.find?_some hf
    have hmem := List.mem_of_find?_eq_some hf
    unfold mapHas
    simp only [List.any_eq_true, decide_eq_true_eq]
    exact ⟨e, hmem, by simpa using hp⟩

theorem markProcessedList_length (interactionId : String)
    (l : List SocialInteraction) :
    (markProcessedList interactionId l).length = l.length := by
  induction l with
  | nil => rfl
  | cons i rest ih =>
    unfold markProcessedList
    split <;> simp [ih]

theorem markProcessedList_absent (interactionId : String)
    (l : List SocialInteraction) (h : ∀ j ∈ l, j.id ≠ interactionId) :
    markProcessedList interactionId l = l := by
  induction l with
  | nil => rfl
  | cons i rest ih =>
    unfold markProcessedList
    rw [if_neg (h i (List.mem_cons_self i rest))]
    rw [ih (fun j hj => h j (List.mem_cons_of_mem i hj))]

theorem map_flip_absent (interactionId : String) (l : List SocialInteraction)
    (h : ∀ j ∈ l, j.id ≠ interactionId) :
    l.map (fun j => if j.id = interactionId then { j with processed := true } else j) = l := by
  induction l with
  | nil => rfl
  | cons i rest ih =>
    rw [List.map_cons, if_neg (h i (List.mem_cons_self i rest))]
    rw [ih (fun j hj => h j (List.mem_cons_of_mem i hj))]

theorem markProcessedList_unique (interactionId : String)
    (l : List SocialInteraction)
    (h : l.Pairwise (fun a b => a.id ≠ b.id)) :
    markProcessedList interactionId l =
      l.map (fun j => if j.id = interactionId then { j with processed := true } else j) := by
  induction l with
  | nil => rfl
  | cons i rest ih =>
    rw [List.pairwise_cons] at h
    unfold markProcessedList
    by_cases hid : i.id = interactionId
    · rw [if_pos hid, List.map_cons, if_pos hid]
      have hrest : ∀ j ∈ rest, j.id ≠ interactionId := by
        intro j hj hc
        exact h.1 j hj (hid.trans hc.symm)
      rw [map_flip_absent interactionId rest hrest]
    · rw [if_neg hid, List.map_cons, if_neg hid, ih h.2]

/-! ## Claim C5: idempotent interaction ingestion -/

/-- C5: `addPendingInteraction` is idempotent on interaction id — adding an
interaction whose id already exists leaves the queue unchanged, adding twice
yields exactly one stored entry with that id, and a fresh id is appended at
the end. -/
theorem addPendingInteraction_spec (s : QueueState) (i : SocialInteraction) :
    ((∃ j ∈ s.pendingInteractions, j.id = i.id) → addPendingInteraction i s = s)
    ∧ addPendingInteraction i (addPendingInteraction i s) = addPendingInteraction i s
    ∧ ((∀ j ∈ s.pendingInteractions, j.id ≠ i.id) →
        (addPendingInteraction i s).pendingInteractions = s.pendingInteractions ++ [i]
        ∧ ((addPendingInteraction i (addPendingInteraction i s)).pendingInteractions.countP
            (fun j => j.id = i.id)) = 1) := by
  have hiff : (s.pendingInteractions.any (fun j => j.id = i.id)) = true ↔
      ∃ j ∈ s.pendingInteractions, j.id = i.id := by
    simp [List.any_eq_true]
  refine ⟨?_, ?_, ?_⟩
  · intro h
    unfold addPendingInteraction
    rw [if_pos (hiff.mpr h)]
  · by_cases hex : (s.pendingInteractions.any (fun j => j.id = i.id)) = true
    · have h0 : addPendingInteraction i s = s := by
        unfold addPendingInteraction
        rw [if_pos hex]
      rw [h0]
      exact h0
    · have h1 : addPendingInteraction i s =
          { s with pendingInteractions := s.pendingInteractions ++ [i] } := by
        unfold addPendingInteraction
        rw [if_neg hex]
      have h2 : ((s.pendingInteractions ++ [i]).any (fun j => j.id = i.id)) = true := by
        simp [List.any_eq_true]
      rw [h1]
      unfold addPendingInteraction
      rw [if_pos h2]
  · intro h
    have hex : (s.pendingInteractions.any (fun j => j.id = i.id)) = false := by
      simp only [List.any_eq_false, decide_eq_true_eq]
      exact h
    have h1 : addPendingInteraction i s =
        { s with pendingInteractions := s.pendingInteractions ++ [i] } := by
      unfold addPendingInteraction
      rw [if_neg (by simp [hex])]
    have h2 : ((s.pendingInteractions ++ [i]).any (fun j => j.id = i.id)) = true := by
      simp [List.any_eq_true]
    have h3 : addPendingInteraction i (addPendingInteraction i s) = addPendingInteraction i s := by
      rw [h1]
      unfold addPendingInteraction
      rw [if_pos h2]
    refine ⟨by rw [h1], ?_⟩
    rw [h3, h1]
    simp only [List.countP_append]
    have hz : s.pendingInteractions.countP (fun j => j.id = i.id) = 0 := by
      rw [List.countP_eq_zero]
      intro j hj
      simpa using h j hj
    simp [hz, List.countP_cons]

/-- Witness for C5 at a concrete queue: adding `sampleInteraction` to the
empty queue appends it, and adding it twice stores exactly one entry. -/
theorem addPendingInteraction_spec_witness :
    (addPendingInteraction sampleInteraction QueueState.empty).pendingInteractions
        = [] ++ [sampleInteraction]
    ∧ ((addPendingInteraction sampleInteraction
          (addPendingInteraction sampleInteraction QueueState.empty)).pendingInteractions.countP
        (fun j => j.id = sampleInteraction.id)) = 1 :=
  (addPendingInteraction_spec QueueState.empty sampleInteraction).2.2
    (by intro j hj; simp [QueueState.empty] at hj)

/-! ## Claim C6: marking an interaction processed -/

/-- C6: `markInteractionProcessed(id)` flips the `processed` flag of the
stored interaction carrying that id and changes nothing else (same length,
all other store fields untouched); an unknown id is a silent no-op. -/
theorem markInteractionProcessed_spec (s : QueueState) (interactionId : String) :
    (markInteractionProcessed interactionId s).pendingInteractions.length
        = s.pendingInteractions.length
    ∧ ((∀ j ∈ s.pendingInteractions, j.id ≠ interactionId) →
        markInteractionProcessed interactionId s = s)
    ∧ (s.pendingInteractions.Pairwise (fun a b => a.id ≠ b.id) →
        (markInteractionProcessed interactionId s).pendingInteractions =
          s.pendingInteractions.map
            (fun j => if j.id = interactionId then { j with processed := true } else j))
    ∧ (markInteractionProcessed interactionId s).pendingPosts = s.pendingPosts
    ∧ (markInteractionProcessed interactionId s).sentReplies = s.sentReplies
    ∧ (markInteractionProcessed interactionId s).dailyQuotas = s.dailyQuotas
    ∧ (markInteractionProcessed interactionId s).platformReplyCounts
        = s.platformReplyCounts := by
  refine ⟨markProcessedList_length _ _, ?_, ?_, rfl, rfl, rfl, rfl⟩
  · intro h
    unfold markInteractionProcessed
    rw [markProcessedList_absent _ _ h]
  · intro h
    unfold markInteractionProcessed
    exact markProcessedList_unique _ _ h

/-- Witness for C6 at a concrete queue: marking `"x1"` in a one-entry queue
flips exactly that entry, and marking an unknown id leaves the state alone. -/
theorem markInteractionProcessed_spec_witness :
    (markInteractionProcessed "x1"
        { QueueState.empty with pendingInteractions := [sampleInteraction] }).pendingInteractions
      = [{ sampleInteraction with processed := true }]
    ∧ markInteractionProcessed "nope"
        { QueueState.empty with pendingInteractions := [sampleInteraction] }
      = { QueueState.empty with pendingInteractions := [sampleInteraction] } := by
  constructor
  · have h := (markInteractionProcessed_spec
      { QueueState.empty with pendingInteractions := [sampleInteraction] } "x1").2.2.1
      (by simp)
    rw [h]
    simp [sampleInteraction]
  · exact (markInteractionProcessed_spec
      { QueueState.empty with pendingInteractions := [sampleInteraction] } "nope").2.1
      (by intro j hj; simp at hj; rw [hj]; simp [sampleInteraction])

/-! ## Claim C8: quota reset followed by quota read -/

/-- C8: `resetDailyQuota()` followed immediately by `getDailyQuota()` on the
same day returns a quota record with zero posts and replies counts and the
configured global limits, for every prior queue state. -/
theorem resetDailyQuota_getDailyQuota (s : QueueState) (today : String) :
    (getDailyQuota today (resetDailyQuota today s)).1 =
      { date := today, postsCount := 0, repliesCount := 0,
        postsLimit := PLATFORM_LIMITS_global.posts,
        repliesLimit := PLATFORM_LIMITS_global.replies } := by
  have hq := mapGet_mapSet today
      ({ date := today, postsCount := 0, repliesCount := 0,
         postsLimit := PLATFORM_LIMITS_global.posts,
         repliesLimit := PLATFORM_LIMITS_global.replies } : DailyQuota) s.dailyQuotas
  have h1 := mapHas_of_mapGet hq
  have h2 := mapHas_of_mapGet
      (mapGet_mapSet today ({ bluesky := 0, x := 0 } : ReplyCounts) s.platformReplyCounts)
  simp [getDailyQuota, initializeDailyQuota, resetDailyQuota, h1, h2, hq]

/-! ## Claim C9: cleanup never removes unprocessed interactions -/

/-- C9: `cleanup()` keeps every unprocessed interaction unmodified regardless
of age; the only removals are processed interactions at or past the seven-day
age, sent replies at or past it, and quota records dated before the cutoff;
all other queue fields are untouched. -/
theorem cleanup_spec (sevenDaysAgo : Int) (cutoffDate : String) (s : QueueState) :
    (∀ i ∈ s.pendingInteractions, i.processed = false →
        i ∈ (cleanup sevenDaysAgo cutoffDate s).pendingInteractions)
    ∧ (∀ i ∈ s.pendingInteractions,
        i ∉ (cleanup sevenDaysAgo cutoffDate s).pendingInteractions →
          i.processed = true ∧ i.timestamp ≤ sevenDaysAgo)
    ∧ (∀ r ∈ s.sentReplies, r ∉ (cleanup sevenDaysAgo cutoffDate s).sentReplies →
        r.timestamp ≤ sevenDaysAgo)
    ∧ (∀ e ∈ s.dailyQuotas, e ∉ (cleanup sevenDaysAgo cutoffDate s).dailyQuotas →
        e.1 < cutoffDate)
    ∧ (cleanup sevenDaysAgo cutoffDate s).pendingPosts = s.pendingPosts
    ∧ (cleanup sevenDaysAgo cutoffDate s).platformReplyCounts = s.platformReplyCounts := by
  refine ⟨?_, ?_, ?_, ?_, rfl, rfl⟩
  · intro i hi hp
    exact List.mem_filter.mpr ⟨hi, by simp [hp]⟩
  · intro i hi hnot
    have hpred : (!i.processed || decide (sevenDaysAgo < i.timestamp)) = false := by
      cases hx : (!i.processed || decide (sevenDaysAgo < i.timestamp)) with
      | true => exact absurd (List.mem_filter.mpr ⟨hi, hx⟩) hnot
      | false => rfl
    simp only [Bool.or_eq_false_iff, Bool.not_eq_false', decide_eq_false_iff_not,
      not_lt] at hpred
    exact hpred
  · intro r hr hnot
    have hpred : (decide (sevenDaysAgo < r.timestamp)) = false := by
      cases hx : (decide (sevenDaysAgo < r.timestamp)) with
      | true => exact absurd (List.mem_filter.mpr ⟨hr, hx⟩) hnot
      | false => rfl
    simpa [not_lt] using hpred
  · intro e he hnot
    have hpred : (decide ¬ e.1 < cutoffDate) = false := by
      cases hx : (decide ¬ e.1 < cutoffDate) with
      | true => exact absurd (List.mem_filter.mpr ⟨he, hx⟩) hnot
      | false => rfl
    simpa using hpred

/-- Witness for C9 at a concrete queue: an unprocessed interaction older than
the cutoff survives `cleanup` untouched. -/
theorem cleanup_spec_witness :
    sampleInteraction ∈ (cleanup 2000 "2025-01-01"
        { QueueState.empty with pendingInteractions := [sampleInteraction] }).pendingInteractions :=
  (cleanup_spec 2000 "2025-01-01"
      { QueueState.empty with pendingInteractions := [sampleInteraction] }).1
    sampleInteraction (by simp) rfl

/-! ## Claim C1: platform post quota admission -/

theorem applyQuotaOp_postsCount_le (op : QuotaOp) (s : PlatformQuotaState) (p : Platform) :
    s.postsCount p ≤ (applyQuotaOp op s).postsCount p := by
  cases op with
  | incPost q =>
    simp only [applyQuotaOp, incrementPostCountOn]
    by_cases hpq : p = q <;> simp [hpq]
  | incReply q =>
    simp [applyQuotaOp, incrementReplyCountOn]

theorem applyQuotaOps_postsCount_le (ops : List QuotaOp) (s : PlatformQuotaState)
    (p : Platform) : s.postsCount p ≤ (applyQuotaOps ops s).postsCount p := by
  induction ops generalizing s with
  | nil => exact le_refl _
  | cons op rest ih =>
    calc s.postsCount p ≤ (applyQuotaOp op s).postsCount p :=
          applyQuotaOp_postsCount_le op s p
      _ ≤ (applyQuotaOps rest (applyQuotaOp op s)).postsCount p := ih _
      _ = (applyQuotaOps (op :: rest) s).postsCount p := rfl

theorem applyQuotaOps_replicate_incPost (n : Nat) (s : PlatformQuotaState) (p : Platform) :
    (applyQuotaOps (List.replicate n (QuotaOp.incPost p)) s).postsCount p
      = s.postsCount p + n := by
  induction n generalizing s with
  | zero => rfl
  | succ m ih =>
    rw [List.replicate_succ]
    show (applyQuotaOps (List.replicate m (QuotaOp.incPost p))
        (applyQuotaOp (QuotaOp.incPost p) s)).postsCount p = s.postsCount p + (m + 1)
    rw [ih]
    simp [applyQuotaOp, incrementPostCountOn]
    omega

/-- C1 (spec-modelled): `canPostOnPlatform(p)` is true iff today's post count
for `p` is strictly below `p`'s posts limit; once the count has reached the
limit it stays false under any further increment operations, and only
`resetDailyQuota()` makes it true again (provided the limit is positive). -/
theorem canPostOnPlatform_spec (postsLimit : Platform → Nat)
    (s : PlatformQuotaState) (p : Platform) :
    (canPostOnPlatform postsLimit s p = true ↔ s.postsCount p < postsLimit p)
    ∧ (postsLimit p ≤ s.postsCount p →
        ∀ ops : List QuotaOp,
          canPostOnPlatform postsLimit (applyQuotaOps ops s) p = false)
    ∧ (∀ n, postsLimit p ≤ n →
        canPostOnPlatform postsLimit
          (applyQuotaOps (List.replicate n (QuotaOp.incPost p)) PlatformQuotaState.fresh) p
          = false)
    ∧ (canPostOnPlatform postsLimit (resetPlatformQuota s) p = true ↔ 0 < postsLimit p) := by
  refine ⟨by simp [canPostOnPlatform], ?_, ?_, by simp [canPostOnPlatform,
    resetPlatformQuota, PlatformQuotaState.fresh]⟩
  · intro hfull ops
    have := applyQuotaOps_postsCount_le ops s p
    simp only [canPostOnPlatform, decide_eq_false_iff_not, not_lt]
    omega
  · intro n hn
    simp only [canPostOnPlatform, applyQuotaOps_replicate_incPost,
      decide_eq_false_iff_not, not_lt]
    simpa [PlatformQuotaState.fresh] using hn

/-- Witness for C1 at concrete limits: after two `incrementPostCount(bluesky)`
calls against a limit of 2, `canPostOnPlatform('bluesky')` is false, and it is
true again after the daily reset. -/
theorem canPostOnPlatform_spec_witness :
    canPostOnPlatform witnessLimits
        (applyQuotaOps (List.replicate 2 (QuotaOp.incPost .bluesky))
          PlatformQuotaState.fresh) .bluesky = false
    ∧ (canPostOnPlatform witnessLimits
        (resetPlatformQuota PlatformQuotaState.fresh) .bluesky = true ↔
          0 < witnessLimits .bluesky) :=
  ⟨(canPostOnPlatform_spec witnessLimits PlatformQuotaState.fresh .bluesky).2.2.1 2
      (by decide),
   (canPostOnPlatform_spec witnessLimits PlatformQuotaState.fresh .bluesky).2.2.2⟩

/-! ## Claim C7: rotation selection avoids recent topics/types -/

theorem getD_mem {l : List α} {i : Nat} (d : α) (h : i < l.length) :
    l.getD i d ∈ l := by
  induction l generalizing i with
  | nil => simp at h
  | cons a t ih =>
    cases i with
    | zero => simp [List.getD]
    | succ m =>
      have : t.getD m d ∈ t := ih (by simpa using h)
      simp only [List.getD_cons_succ]
      exact List.mem_cons_of_mem a this

/-- C7: whenever excluding the topics of the last 5 logged posts leaves the
pool non-empty, `selectTopic` returns (for every random draw) a topic outside
those recent topics, and always a member of the topic set; `selectPostType`
satisfies the same with a look-back of 2 over the type set. -/
theorem selectTopic_selectPostType_spec (recentPostLog : List PostLogEntry)
    (rand randTy : Nat) :
    (POST_TOPICS.filter
        (fun t => !((sliceLast 5 recentPostLog).map (·.topic)).contains t) ≠ [] →
      ((sliceLast 5 recentPostLog).map (·.topic)).contains
          (selectTopic recentPostLog rand) = false)
    ∧ selectTopic recentPostLog rand ∈ POST_TOPICS
    ∧ (POST_TYPES.filter
        (fun t => !((sliceLast 2 recentPostLog).map (·.type)).contains t) ≠ [] →
      ((sliceLast 2 recentPostLog).map (·.type)).contains
          (selectPostType recentPostLog randTy) = false)
    ∧ selectPostType recentPostLog randTy ∈ POST_TYPES := by
  refine ⟨?_, ?_, ?_, ?_⟩
  · intro hne
    have hlen : 0 < (POST_TOPICS.filter
        (fun t => !((sliceLast 5 recentPostLog).map (·.topic)).contains t)).length :=
      List.length_pos.mpr hne
    have hmem : selectTopic recentPostLog rand ∈ POST_TOPICS.filter
        (fun t => !((sliceLast 5 recentPostLog).map (·.topic)).contains t) := by
      simp only [selectTopic]
      rw [if_pos hlen]
      exact getD_mem "" (Nat.mod_lt rand hlen)
    have := List.of_mem_filter hmem
    simpa using this
  · simp only [selectTopic]
    split
    · next hlen =>
      have hmem := getD_mem (l := POST_TOPICS.filter
          (fun t => !((sliceLast 5 recentPostLog).map (·.topic)).contains t)) ""
          (Nat.mod_lt rand hlen)
      exact List.mem_of_mem_filter hmem
    · next hlen =>
      have hp : 0 < POST_TOPICS.length := by simp [POST_TOPICS]
      exact getD_mem "" (Nat.mod_lt rand hp)
  · intro hne
    have hlen : 0 < (POST_TYPES.filter
        (fun t => !((sliceLast 2 recentPostLog).map (·.type)).contains t)).length :=
      List.length_pos.mpr hne
    have hmem : selectPostType recentPostLog randTy ∈ POST_TYPES.filter
        (fun t => !((sliceLast 2 recentPostLog).map (·.type)).contains t) := by
      simp only [selectPostType]
      rw [if_pos hlen]
      exact getD_mem "" (Nat.mod_lt randTy hlen)
    have := List.of_mem_filter hmem
    simpa using this
  · simp only [selectPostType]
    split
    · next hlen =>
      have hmem := getD_mem (l := POST_TYPES.filter
          (fun t => !((sliceLast 2 recentPostLog).map (·.type)).contains t)) ""
          (Nat.mod_lt randTy hlen)
      exact List.mem_of_mem_filter hmem
    · next hlen =>
      have hp : 0 < POST_TYPES.length := by simp [POST_TYPES]
      exact getD_mem "" (Nat.mod_lt randTy hp)

/-- Witness for C7 at a concrete one-entry history: the freshly selected topic
avoids the logged topic and the selected type avoids the logged type. -/
theorem selectTopic_selectPostType_spec_witness :
    (((sliceLast 5 [samplePostLogEntry]).map (·.topic)).contains
        (selectTopic [samplePostLogEntry] 0) = false)
    ∧ (((sliceLast 2 [samplePostLogEntry]).map (·.type)).contains
        (selectPostType [samplePostLogEntry] 0) = false) :=
  ⟨(selectTopic_selectPostType_spec [samplePostLogEntry] 0 0).1 (by decide),
   (selectTopic_selectPostType_spec [samplePostLogEntry] 0 0).2.2.1 (by decide)⟩

/-! ## Claim C3: platform formatter truncation -/

/-- C3: `formatForX` and `formatForBluesky` run their URL-substitution step
first (`formatForBluesky` substitutes only when `includeLinks` is false; its
link-retaining default branch passes the text through), then hard-truncate to
exactly the platform ceiling (280 / 300 code units) ending in the marker
`'...'` when the substituted text exceeds the ceiling, return the substituted
text unchanged otherwise, and always report `characterCount` equal to the
length of the returned text. -/
theorem formatForX_formatForBluesky_spec (content : List Char) (includeLinks : Bool) :
    (280 < (replaceURLs xUrlRepl content).length →
        (formatForX content includeLinks).text.length = 280
        ∧ "...".toList <:+ (formatForX content includeLinks).text)
    ∧ ((replaceURLs xUrlRepl content).length ≤ 280 →
        (formatForX content includeLinks).text = replaceURLs xUrlRepl content)
    ∧ (formatForX content includeLinks).characterCount
        = (formatForX content includeLinks).text.length
    ∧ (300 < (if !includeLinks then replaceURLs bskyUrlRepl content else content).length →
        (formatForBluesky content includeLinks).text.length = 300
        ∧ "...".toList <:+ (formatForBluesky content includeLinks).text)
    ∧ ((if !includeLinks then replaceURLs bskyUrlRepl content else content).length ≤ 300 →
        (formatForBluesky content includeLinks).text
          = (if !includeLinks then replaceURLs bskyUrlRepl content else content))
    ∧ (formatForBluesky content includeLinks).characterCount
        = (formatForBluesky content includeLinks).text.length := by
  have hX : (formatForX content includeLinks).text =
      (if 280 < (replaceURLs xUrlRepl content).length
       then (replaceURLs xUrlRepl content).take 277 ++ "...".toList
       else replaceURLs xUrlRepl content) := rfl
  have hB : (formatForBluesky content includeLinks).text =
      (if 300 < (if !includeLinks then replaceURLs bskyUrlRepl content else content).length
       then (if !includeLinks then replaceURLs bskyUrlRepl content else content).take 297
              ++ "...".toList
       else (if !includeLinks then replaceURLs bskyUrlRepl content else content)) := rfl
  have h3 : ("...".toList).length = 3 := rfl
  refine ⟨?_, ?_, rfl, ?_, ?_, rfl⟩
  · intro h
    rw [hX, if_pos h]
    refine ⟨?_, List.suffix_append _ _⟩
    simp only [List.length_append, List.length_take, h3]
    omega
  · intro h
    rw [hX, if_neg (not_lt.mpr h)]
  · intro h
    rw [hB, if_pos h]
    refine ⟨?_, List.suffix_append _ _⟩
    simp only [List.length_append, List.length_take, h3]
    omega
  · intro h
    rw [hB, if_neg (not_lt.mpr h)]

set_option maxRecDepth 8000 in
/-- Witness for C3 at concrete inputs: a 281-'a' input is truncated to exactly
280 code units ending in the marker, and a short input passes through
unchanged. -/
theorem formatForX_formatForBluesky_spec_witness :
    (formatForX (List.replicate 281 'a') false).text.length = 280
    ∧ "...".toList <:+ (formatForX (List.replicate 281 'a') false).text
    ∧ (formatForBluesky (List.replicate 5 'a') true).text = List.replicate 5 'a' := by
  have h1 := (formatForX_formatForBluesky_spec (List.replicate 281 'a') false).1
    (by decide)
  have h2 := (formatForX_formatForBluesky_spec (List.replicate 5 'a') true).2.2.2.2.1
    (by decide)
  exact ⟨h1.1, h1.2, by simpa using h2⟩

/-! ## Claim C4: rotation-history logging across retries -/

theorem generatePostContent_all_over (gen : Nat → List Char) (randT randTy : Nat → Nat)
    (date : String) (log : List PostLogEntry)
    (h0 : maxContentChars < (gen 0).length)
    (h1 : maxContentChars < (gen 1).length)
    (h2 : maxContentChars < (gen 2).length) :
    (generatePostContent gen randT randTy date log 0).2 = log := by
  rw [generatePostContent.eq_def]
  rw [if_pos h0, dif_pos (by omega : (0 : Nat) < 2)]
  rw [generatePostContent.eq_def]
  rw [if_pos h1, dif_pos (by omega : (1 : Nat) < 2)]
  rw [generatePostContent.eq_def]
  rw [if_pos h2, dif_neg (by omega : ¬ (2 : Nat) < 2),
    if_neg (by omega : ¬ (2 : Nat) = 0)]

theorem generatePostContent_first_fits (gen : Nat → List Char) (randT randTy : Nat → Nat)
    (date : String) (log : List PostLogEntry)
    (h0 : (gen 0).length ≤ maxContentChars) :
    (generatePostContent gen randT randTy date log 0).2 =
      logPost (selectTopic log (randT 0)) (selectPostType log (randTy 0)) date log := by
  rw [generatePostContent.eq_def]
  rw [if_neg (not_lt.mpr h0), if_pos rfl]

set_option maxRecDepth 8000 in
/-- C4 (code behavior at the spec's scenario-3 input): with every generation
attempt returning a 400-code-unit response against the
`300 - signature.length` budget, the top-level `generatePostContent`
invocation leaves the rotation history empty — zero entries are appended
rather than the one entry the spec requires, because the
`retryCount === 0` logging guard sits after the early `return` taken by the
retry path, so an overflowing first attempt never reaches `logPost`.  When
the first attempt fits, exactly one entry is appended. -/
theorem generatePostContent_overflow_never_logs :
    (generatePostContent (fun _ => List.replicate 400 'a') (fun _ => 0) (fun _ => 0)
        "2026-01-01" [] 0).2 = []
    ∧ (generatePostContent (fun _ => List.replicate 250 'a') (fun _ => 0) (fun _ => 0)
        "2026-01-01" [] 0).2.length = 1 := by
  constructor
  · exact generatePostContent_all_over _ _ _ _ _ (by decide) (by decide) (by decide)
  · rw [generatePostContent_first_fits _ _ _ _ _ (by decide)]
    rfl

/-! ## Rate limiter lemmas -/

theorem evictList_cons_lt {c a : Int} (t : List Int) (h : a < c) :
    evictList c (a :: t) = evictList c t := by
  simp [evictList, List.dropWhile_cons, h]

theorem evictList_cons_ge {c a : Int} (t : List Int) (h : ¬ a < c) :
    evictList c (a :: t) = a :: t := by
  simp [evictList, List.dropWhile_cons, h]

theorem evictList_evictList {c c' : Int} (h : c ≤ c') (l : List Int) :
    evictList c' (evictList c l) = evictList c' l := by
  induction l with
  | nil => rfl
  | cons a t ih =>
    by_cases hac : a < c
    · rw [evictList_cons_lt t hac, ih, evictList_cons_lt t (lt_of_lt_of_le hac h)]
    · rw [evictList_cons_ge t hac]

theorem evictList_append (c : Int) (l₁ l₂ : List Int) :
    evictList c (l₁ ++ l₂) =
      if evictList c l₁ = [] then evictList c l₂ else evictList c l₁ ++ l₂ := by
  induction l₁ with
  | nil => simp [evictList]
  | cons a t ih =>
    by_cases hac : a < c
    · rw [List.cons_append, evictList_cons_lt _ hac, ih, evictList_cons_lt t hac]
    · rw [List.cons_append, evictList_cons_ge _ hac, evictList_cons_ge t hac]
      simp

theorem evictList_eq_nil {c : Int} {l : List Int} (h : ∀ x ∈ l, x < c) :
    evictList c l = [] := by
  induction l with
  | nil => rfl
  | cons a t ih =>
    rw [evictList_cons_lt t (h a (List.mem_cons_self a t))]
    exact ih fun x hx => h x (List.mem_cons_of_mem a hx)

theorem evictList_eq_filter {c : Int} {l : List Int} (h : l.Pairwise (· ≤ ·)) :
    evictList c l = l.filter (fun ts => decide (c ≤ ts)) := by
  induction l with
  | nil => rfl
  | cons a t ih =>
    rw [List.pairwise_cons] at h
    by_cases hac : a < c
    · rw [evictList_cons_lt t hac, List.filter_cons,
        if_neg (by simpa using not_le.mpr hac)]
      exact ih h.2
    · have hca : c ≤ a := le_of_not_lt hac
      rw [evictList_cons_ge t hac, List.filter_cons, if_pos (by simpa using hca)]
      rw [List.filter_eq_self.mpr fun x hx => by simpa using le_trans hca (h.1 x hx)]

theorem length_filter_mono {p q : α → Bool} {l : List α}
    (h : ∀ a ∈ l, p a = true → q a = true) :
    (l.filter p).length ≤ (l.filter q).length := by
  induction l with
  | nil => exact le_refl _
  | cons a t ih =>
    have ht : ∀ b ∈ t, p b = true → q b = true :=
      fun b hb => h b (List.mem_cons_of_mem a hb)
    rw [List.filter_cons, List.filter_cons]
    by_cases hp : p a = true
    · rw [if_pos hp, if_pos (h a (List.mem_cons_self a t) hp)]
      simpa using ih ht
    · rw [if_neg hp]
      split
      · exact le_trans (ih ht) (by simp)
      · exact ih ht

theorem runLimiter_snoc (cfg : RateLimiterConfig) (es : List (String × Int))
    (e : String × Int) :
    runLimiter cfg (es ++ [e]) =
      ((attempt cfg e.1 e.2 (runLimiter cfg es).1).2,
       if (attempt cfg e.1 e.2 (runLimiter cfg es).1).1.allowed
       then (runLimiter cfg es).2 ++ [e] else (runLimiter cfg es).2) := by
  unfold runLimiter
  rw [List.foldl_append]
  rfl

theorem attempt_reject_perKey (cfg : RateLimiterConfig) (key : String) (now : Int)
    (s : RateLimiterState)
    (hA : cfg.perKeyLimit ≤ ((evict cfg now s).perKey key).length) :
    (attempt cfg key now s).1.allowed = false
    ∧ (attempt cfg key now s).2 = evict cfg now s := by
  unfold attempt
  rw [if_pos hA]
  exact ⟨rfl, rfl⟩

theorem attempt_reject_global (cfg : RateLimiterConfig) (key : String) (now : Int)
    (s : RateLimiterState)
    (hA : ¬ cfg.perKeyLimit ≤ ((evict cfg now s).perKey key).length)
    (hB : cfg.globalLimit ≤ (evict cfg now s).global.length) :
    (attempt cfg key now s).1.allowed = false
    ∧ (attempt cfg key now s).2 = evict cfg now s := by
  unfold attempt
  rw [if_neg hA, if_pos hB]
  exact ⟨rfl, rfl⟩

theorem attempt_accept (cfg : RateLimiterConfig) (key : String) (now : Int)
    (s : RateLimiterState)
    (hA : ¬ cfg.perKeyLimit ≤ ((evict cfg now s).perKey key).length)
    (hB : ¬ cfg.globalLimit ≤ (evict cfg now s).global.length) :
    (attempt cfg key now s).1.allowed = true
    ∧ (∀ k, (attempt cfg key now s).2.perKey k
        = if k = key then (evict cfg now s).perKey key ++ [now]
          else (evict cfg now s).perKey k)
    ∧ (attempt cfg key now s).2.global = (evict cfg now s).global ++ [now] := by
  unfold attempt
  rw [if_neg hA, if_neg hB]
  exact ⟨rfl, fun k => rfl, rfl⟩

theorem runLimiter_inv (cfg : RateLimiterConfig) :
    ∀ events : List (String × Int), ((events.map Prod.snd).Pairwise (· ≤ ·)) →
      (runLimiter cfg events).2.Sublist events
      ∧ (∀ now, (∀ x ∈ events, x.2 ≤ now) →
          (∀ k, evictList (now - cfg.windowMs) ((runLimiter cfg events).1.perKey k)
              = ((runLimiter cfg events).2.filter
                  (inKeyCut k (now - cfg.windowMs))).map Prod.snd)
          ∧ evictList (now - cfg.windowMs) ((runLimiter cfg events).1).global
              = ((runLimiter cfg events).2.filter
                  (afterCut (now - cfg.windowMs))).map Prod.snd)
      ∧ (∀ k t, ((runLimiter cfg events).2.filter (inKeyWindow k t cfg.windowMs)).length
            ≤ cfg.perKeyLimit)
      ∧ (∀ t, ((runLimiter cfg events).2.filter (inWindow t cfg.windowMs)).length
            ≤ cfg.globalLimit) := by
  intro events
  induction events using List.reverseRecOn with
  | nil =>
    intro _
    refine ⟨List.Sublist.refl _, ?_, ?_, ?_⟩
    · intro now _
      exact ⟨fun k => rfl, rfl⟩
    · intro k t
      exact Nat.zero_le _
    · intro t
      exact Nat.zero_le _
  | append_singleton es e ih =>
    intro hs
    have hsplit := List.pairwise_append.mp (by simpa using hs)
    obtain ⟨hs_es, _, hcross⟩ := hsplit
    have hbound : ∀ x ∈ es, x.2 ≤ e.2 := by
      intro x hx
      exact hcross x.2 (List.mem_map_of_mem _ hx) e.2 (by simp)
    obtain ⟨ihSub, ihEv, ihK, ihG⟩ := ih hs_es
    have hrun1 : (runLimiter cfg (es ++ [e])).1
        = (attempt cfg e.1 e.2 (runLimiter cfg es).1).2 := by
      rw [runLimiter_snoc]
    have hrun2 : (runLimiter cfg (es ++ [e])).2
        = (if (attempt cfg e.1 e.2 (runLimiter cfg es).1).1.allowed
           then (runLimiter cfg es).2 ++ [e] else (runLimiter cfg es).2) := by
      rw [runLimiter_snoc]
    have hEv0 := ihEv e.2 hbound
    have hkey : ∀ k, (evict cfg e.2 (runLimiter cfg es).1).perKey k
        = ((runLimiter cfg es).2.filter
            (inKeyCut k (e.2 - cfg.windowMs))).map Prod.snd := fun k => hEv0.1 k
    have hglob : (evict cfg e.2 (runLimiter cfg es).1).global
        = ((runLimiter cfg es).2.filter
            (afterCut (e.2 - cfg.windowMs))).map Prod.snd := hEv0.2
    have hLmem : ∀ x ∈ (runLimiter cfg es).2, x.2 ≤ e.2 :=
      fun x hx => hbound x (ihSub.subset hx)
    by_cases hA : cfg.perKeyLimit ≤ ((evict cfg e.2 (runLimiter cfg es).1).perKey e.1).length
    · -- per-key rejection: state is the evicted state, log unchanged
      have hrej := attempt_reject_perKey cfg e.1 e.2 (runLimiter cfg es).1 hA
      have hlog : (runLimiter cfg (es ++ [e])).2 = (runLimiter cfg es).2 := by
        rw [hrun2, hrej.1]
        rfl
      refine ⟨?_, ?_, ?_, ?_⟩
      · rw [hlog]
        exact ihSub.trans (List.sublist_append_left es [e])
      · intro now hnow
        have hnow_es : ∀ x ∈ es, x.2 ≤ now :=
          fun x hx => hnow x (List.mem_append_left _ hx)
        have hcut : e.2 - cfg.windowMs ≤ now - cfg.windowMs := by
          have := hnow e (List.mem_append_right es (by simp))
          omega
        constructor
        · intro k
          rw [hrun1, hrej.2, hlog]
          show evictList (now - cfg.windowMs)
              (evictList (e.2 - cfg.windowMs) ((runLimiter cfg es).1.perKey k)) = _
          rw [evictList_evictList hcut]
          exact (ihEv now hnow_es).1 k
        · rw [hrun1, hrej.2, hlog]
          show evictList (now - cfg.windowMs)
              (evictList (e.2 - cfg.windowMs) ((runLimiter cfg es).1).global) = _
          rw [evictList_evictList hcut]
          exact (ihEv now hnow_es).2
      · intro k t
        rw [hlog]
        exact ihK k t
      · intro t
        rw [hlog]
        exact ihG t
    · by_cases hB : cfg.globalLimit ≤ (evict cfg e.2 (runLimiter cfg es).1).global.length
      · -- global rejection: same shape as per-key rejection
        have hrej := attempt_reject_global cfg e.1 e.2 (runLimiter cfg es).1 hA hB
        have hlog : (runLimiter cfg (es ++ [e])).2 = (runLimiter cfg es).2 := by
          rw [hrun2, hrej.1]
          rfl
        refine ⟨?_, ?_, ?_, ?_⟩
        · rw [hlog]
          exact ihSub.trans (List.sublist_append_left es [e])
        · intro now hnow
          have hnow_es : ∀ x ∈ es, x.2 ≤ now :=
            fun x hx => hnow x (List.mem_append_left _ hx)
          have hcut : e.2 - cfg.windowMs ≤ now - cfg.windowMs := by
            have := hnow e (List.mem_append_right es (by simp))
            omega
          constructor
          · intro k
            rw [hrun1, hrej.2, hlog]
            show evictList (now - cfg.windowMs)
                (evictList (e.2 - cfg.windowMs) ((runLimiter cfg es).1.perKey k)) = _
            rw [evictList_evictList hcut]
            exact (ihEv now hnow_es).1 k
          · rw [hrun1, hrej.2, hlog]
            show evictList (now - cfg.windowMs)
                (evictList (e.2 - cfg.windowMs) ((runLimiter cfg es).1).global) = _
            rw [evictList_evictList hcut]
            exact (ihEv now hnow_es).2
        · intro k t
          rw [hlog]
          exact ihK k t
        · intro t
          rw [hlog]
          exact ihG t
      · -- acceptance: `now` is recorded for the key and globally
        have hacc := attempt_accept cfg e.1 e.2 (runLimiter cfg es).1 hA hB
        have hlog : (runLimiter cfg (es ++ [e])).2 = (runLimiter cfg es).2 ++ [e] := by
          rw [hrun2, hacc.1]
          rfl
        refine ⟨?_, ?_, ?_, ?_⟩
        · rw [hlog]
          exact ihSub.append (List.Sublist.refl [e])
        · intro now hnow
          have hnow_es : ∀ x ∈ es, x.2 ≤ now :=
            fun x hx => hnow x (List.mem_append_left _ hx)
          have he_now : e.2 ≤ now := hnow e (List.mem_append_right es (by simp))
          have hcut : e.2 - cfg.windowMs ≤ now - cfg.windowMs := by omega
          constructor
          · intro k
            rw [hrun1, hlog, hacc.2.1 k]
            by_cases hk : k = e.1
            · subst hk
              rw [if_pos rfl]
              have hXa : evictList (now - cfg.windowMs)
                  ((evict cfg e.2 (runLimiter cfg es).1).perKey e.1)
                  = ((runLimiter cfg es).2.filter
                      (inKeyCut e.1 (now - cfg.windowMs))).map Prod.snd := by
                show evictList (now - cfg.windowMs)
                    (evictList (e.2 - cfg.windowMs) ((runLimiter cfg es).1.perKey e.1)) = _
                rw [evictList_evictList hcut]
                exact (ihEv now hnow_es).1 e.1
              by_cases hce : now - cfg.windowMs ≤ e.2
              · have hRHS : (((runLimiter cfg es).2 ++ [e]).filter
                    (inKeyCut e.1 (now - cfg.windowMs))).map Prod.snd
                    = ((runLimiter cfg es).2.filter
                        (inKeyCut e.1 (now - cfg.windowMs))).map Prod.snd ++ [e.2] := by
                  rw [List.filter_append]
                  have hpe : inKeyCut e.1 (now - cfg.windowMs) e = true := by
                    simp [inKeyCut, hce]
                  simp [hpe]
                rw [hRHS, evictList_append]
                rw [hXa]
                split
                · next h0 =>
                  rw [h0, evictList_cons_ge [] (not_lt.mpr hce)]
                  simp
                · rfl
              · have hlt : e.2 < now - cfg.windowMs := by omega
                have hallL : ∀ x ∈ (evict cfg e.2 (runLimiter cfg es).1).perKey e.1,
                    x < now - cfg.windowMs := by
                  intro x hx
                  rw [hkey e.1] at hx
                  obtain ⟨en, hen, hsnd⟩ := List.mem_map.mp hx
                  have := hLmem en (List.mem_of_mem_filter hen)
                  omega
                have hLHS : evictList (now - cfg.windowMs)
                    ((evict cfg e.2 (runLimiter cfg es).1).perKey e.1 ++ [e.2]) = [] := by
                  apply evictList_eq_nil
                  intro x hx
                  rcases List.mem_append.mp hx with hx | hx
                  · exact hallL x hx
                  · simp at hx
                    omega
                rw [hLHS]
                have hnone : ((runLimiter cfg es).2 ++ [e]).filter
                    (inKeyCut e.1 (now - cfg.windowMs)) = [] := by
                  rw [List.filter_eq_nil]
                  intro a ha
                  rcases List.mem_append.mp ha with ha | ha
                  · have := hLmem a ha
                    simp [inKeyCut]
                    intro _
                    omega
                  · simp at ha
                    subst ha
                    simp [inKeyCut]
                    omega
                rw [hnone]
                rfl
            · rw [if_neg hk]
              have hXa : evictList (now - cfg.windowMs)
                  ((evict cfg e.2 (runLimiter cfg es).1).perKey k)
                  = ((runLimiter cfg es).2.filter
                      (inKeyCut k (now - cfg.windowMs))).map Prod.snd := by
                show evictList (now - cfg.windowMs)
                    (evictList (e.2 - cfg.windowMs) ((runLimiter cfg es).1.perKey k)) = _
                rw [evictList_evictList hcut]
                exact (ihEv now hnow_es).1 k
              rw [hXa, List.filter_append]
              have hpe : inKeyCut k (now - cfg.windowMs) e = false := by
                have : (decide (e.1 = k)) = false := decide_eq_false fun hh => hk hh.symm
                simp [inKeyCut, this]
              simp [hpe]
          · rw [hrun1, hlog, hacc.2.2]
            by_cases hce : now - cfg.windowMs ≤ e.2
            · have hRHS : (((runLimiter cfg es).2 ++ [e]).filter
                  (afterCut (now - cfg.windowMs))).map Prod.snd
                  = ((runLimiter cfg es).2.filter
                      (afterCut (now - cfg.windowMs))).map Prod.snd ++ [e.2] := by
                rw [List.filter_append]
                have hpe : afterCut (now - cfg.windowMs) e = true := by
                  simp [afterCut, hce]
                simp [hpe]
              have hXa : evictList (now - cfg.windowMs)
                  ((evict cfg e.2 (runLimiter cfg es).1).global)
                  = ((runLimiter cfg es).2.filter
                      (afterCut (now - cfg.windowMs))).map Prod.snd := by
                show evictList (now - cfg.windowMs)
                    (evictList (e.2 - cfg.windowMs) ((runLimiter cfg es).1).global) = _
                rw [evictList_evictList hcut]
                exact (ihEv now hnow_es).2
              rw [hRHS, evictList_append, hXa]
              split
              · next h0 =>
                rw [h0, evictList_cons_ge [] (not_lt.mpr hce)]
                simp
              · rfl
            · have hlt : e.2 < now - cfg.windowMs := by omega
              have hallL : ∀ x ∈ (evict cfg e.2 (runLimiter cfg es).1).global,
                  x < now - cfg.windowMs := by
                intro x hx
                rw [hglob] at hx
                obtain ⟨en, hen, hsnd⟩ := List.mem_map.mp hx
                have := hLmem en (List.mem_of_mem_filter hen)
                omega
              have hLHS : evictList (now - cfg.windowMs)
                  ((evict cfg e.2 (runLimiter cfg es).1).global ++ [e.2]) = [] := by
                apply evictList_eq_nil
                intro x hx
                rcases List.mem_append.mp hx with hx | hx
                · exact hallL x hx
                · simp at hx
                  omega
              rw [hLHS]
              have hnone : ((runLimiter cfg es).2 ++ [e]).filter
                  (afterCut (now - cfg.windowMs)) = [] := by
                rw [List.filter_eq_nil]
                intro a ha
                rcases List.mem_append.mp ha with ha | ha
                · have := hLmem a ha
                  simp [afterCut]
                  omega
                · simp at ha
                  subst ha
                  simp [afterCut]
                  omega
              rw [hnone]
              rfl
        · intro k t
          rw [hlog, List.filter_append]
          by_cases hwe : inKeyWindow k t cfg.windowMs e = true
          · have h1 : ([e].filter (inKeyWindow k t cfg.windowMs)) = [e] := by
              simp [hwe]
            rw [h1, List.length_append]
            have hek : (e.1 = k ∧ t ≤ e.2) ∧ e.2 ≤ t + cfg.windowMs := by
              simpa [inKeyWindow] using hwe
            have hlenEq : ((evict cfg e.2 (runLimiter cfg es).1).perKey e.1).length
                = ((runLimiter cfg es).2.filter
                    (inKeyCut e.1 (e.2 - cfg.windowMs))).length := by
              rw [hkey e.1, List.length_map]
            have hlt : ((runLimiter cfg es).2.filter
                (inKeyCut e.1 (e.2 - cfg.windowMs))).length < cfg.perKeyLimit := by
              omega
            have hmono : ((runLimiter cfg es).2.filter
                (inKeyWindow k t cfg.windowMs)).length
                ≤ ((runLimiter cfg es).2.filter
                    (inKeyCut e.1 (e.2 - cfg.windowMs))).length := by
              apply length_filter_mono
              intro a _ hpa
              have hp : (a.1 = k ∧ t ≤ a.2) ∧ a.2 ≤ t + cfg.windowMs := by
                simpa [inKeyWindow] using hpa
              have : a.1 = e.1 := hp.1.1.trans hek.1.1.symm
              simp [inKeyCut, this]
              omega
            simp only [List.length_singleton]
            omega
          · have hwe' : inKeyWindow k t cfg.windowMs e = false := by
              simpa using hwe
            have h1 : ([e].filter (inKeyWindow k t cfg.windowMs)) = [] := by
              simp [hwe']
            rw [h1, List.append_nil]
            exact ihK k t
        · intro t
          rw [hlog, List.filter_append]
          by_cases hwe : inWindow t cfg.windowMs e = true
          · have h1 : ([e].filter (inWindow t cfg.windowMs)) = [e] := by
              simp [hwe]
            rw [h1, List.length_append]
            have hek : t ≤ e.2 ∧ e.2 ≤ t + cfg.windowMs := by
              simpa [inWindow] using hwe
            have hlenEq : ((evict cfg e.2 (runLimiter cfg es).1).global).length
                = ((runLimiter cfg es).2.filter
                    (afterCut (e.2 - cfg.windowMs))).length := by
              rw [hglob, List.length_map]
            have hlt : ((runLimiter cfg es).2.filter
                (afterCut (e.2 - cfg.windowMs))).length < cfg.globalLimit := by
              omega
            have hmono : ((runLimiter cfg es).2.filter (inWindow t cfg.windowMs)).length
                ≤ ((runLimiter cfg es).2.filter
                    (afterCut (e.2 - cfg.windowMs))).length := by
              apply length_filter_mono
              intro a _ hpa
              have hp : t ≤ a.2 ∧ a.2 ≤ t + cfg.windowMs := by
                simpa [inWindow] using hpa
              simp [afterCut]
              omega
            simp only [List.length_singleton]
            omega
          · have hwe' : inWindow t cfg.windowMs e = false := by
              simpa using hwe
            have h1 : ([e].filter (inWindow t cfg.windowMs)) = [] := by
              simp [hwe']
            rw [h1, List.append_nil]
            exact ihG t

/-! ## Claim C2: sliding-window admission bounds -/

/-- C2: over any chronological sequence of `attempt` calls from a fresh
limiter, the admitted calls carrying a given key inside any closed window of
`windowMs` milliseconds never exceed `perKeyLimit`, the admitted calls of all
keys inside such a window never exceed `globalLimit`, and at any later clock
value at which the current window holds fewer than the limits for a key
(in particular once more than `windowMs` has elapsed past every admitted
timestamp of a full window), the next `attempt` for that key is admitted. -/
theorem slidingWindow_spec (cfg : RateLimiterConfig) (events : List (String × Int))
    (hsorted : (events.map Prod.snd).Pairwise (· ≤ ·)) :
    (∀ k t, ((runLimiter cfg events).2.filter (inKeyWindow k t cfg.windowMs)).length
        ≤ cfg.perKeyLimit)
    ∧ (∀ t, ((runLimiter cfg events).2.filter (inWindow t cfg.windowMs)).length
        ≤ cfg.globalLimit)
    ∧ (∀ key now, (∀ x ∈ events, x.2 ≤ now) →
        ((runLimiter cfg events).2.filter
            (inKeyCut key (now - cfg.windowMs))).length < cfg.perKeyLimit →
        ((runLimiter cfg events).2.filter
            (afterCut (now - cfg.windowMs))).length < cfg.globalLimit →
        (attempt cfg key now (runLimiter cfg events).1).1.allowed = true) := by
  obtain ⟨_, hEv, hK, hG⟩ := runLimiter_inv cfg events hsorted
  refine ⟨hK, hG, ?_⟩
  intro key now hnow hkcnt hgcnt
  have hkey : (evict cfg now (runLimiter cfg events).1).perKey key
      = ((runLimiter cfg events).2.filter
          (inKeyCut key (now - cfg.windowMs))).map Prod.snd := (hEv now hnow).1 key
  have hglob : (evict cfg now (runLimiter cfg events).1).global
      = ((runLimiter cfg events).2.filter
          (afterCut (now - cfg.windowMs))).map Prod.snd := (hEv now hnow).2
  have hA : ¬ cfg.perKeyLimit ≤ ((evict cfg now (runLimiter cfg events).1).perKey key).length := by
    rw [hkey, List.length_map]
    omega
  have hB : ¬ cfg.globalLimit ≤ ((evict cfg now (runLimiter cfg events).1).global).length := by
    rw [hglob, List.length_map]
    omega
  exact (attempt_accept cfg key now (runLimiter cfg events).1 hA hB).1

/-- Witness for C2 at a concrete run (per-key limit 1, global limit 2, window
10 ms): after admissions the windowed per-key count stays within the limit,
and an attempt made once the window has passed the previously admitted
timestamp is admitted. -/
theorem slidingWindow_spec_witness :
    ((runLimiter ⟨1, 2, 10⟩ [("a", 0), ("a", 5)]).2.filter
        (inKeyWindow "a" 0 10)).length ≤ 1
    ∧ (attempt ⟨1, 2, 10⟩ "a" 11
        (runLimiter ⟨1, 2, 10⟩ [("a", 0), ("a", 5)]).1).1.allowed = true := by
  have h := slidingWindow_spec ⟨1, 2, 10⟩ [("a", 0), ("a", 5)] (by decide)
  exact ⟨h.1 "a" 0, h.2.2 "a" 11 (by decide) (by decide) (by decide)⟩

/-! ## Claim C10: rejection consumes no quota -/

/-- C10: a rejected `attempt` appends no timestamp anywhere — the resulting
state is exactly the evicted state, and (for chronologically recorded
sequences, which are sorted) each per-key sequence and the global sequence
equal the prior ones restricted to the current window `[now - windowMs, now]`
by time-based eviction alone. -/
theorem attempt_reject_spec (cfg : RateLimiterConfig) (key : String) (now : Int)
    (s : RateLimiterState)
    (hreject : (attempt cfg key now s).1.allowed = false)
    (hsorted : ∀ k, (s.perKey k).Pairwise (· ≤ ·))
    (hgsorted : s.global.Pairwise (· ≤ ·)) :
    (attempt cfg key now s).2 = evict cfg now s
    ∧ (∀ k, (attempt cfg key now s).2.perKey k
        = (s.perKey k).filter (fun ts => decide (now - cfg.windowMs ≤ ts)))
    ∧ (attempt cfg key now s).2.global
        = s.global.filter (fun ts => decide (now - cfg.windowMs ≤ ts)) := by
  have hstate : (attempt cfg key now s).2 = evict cfg now s := by
    by_cases hA : cfg.perKeyLimit ≤ ((evict cfg now s).perKey key).length
    · exact (attempt_reject_perKey cfg key now s hA).2
    · by_cases hB : cfg.globalLimit ≤ (evict cfg now s).global.length
      · exact (attempt_reject_global cfg key now s hA hB).2
      · have := (attempt_accept cfg key now s hA hB).1
        rw [this] at hreject
        exact absurd hreject (by simp)
  refine ⟨hstate, ?_, ?_⟩
  · intro k
    rw [hstate]
    show evictList (now - cfg.windowMs) (s.perKey k) = _
    exact evictList_eq_filter (hsorted k)
  · rw [hstate]
    show evictList (now - cfg.windowMs) s.global = _
    exact evictList_eq_filter hgsorted

/-- Witness for C10 at a concrete rejected attempt (per-key limit 1 already
consumed by the timestamp 5): the state after the rejection carries exactly
the still-in-window timestamp and nothing new. -/
theorem attempt_reject_spec_witness :
    (attempt ⟨1, 1, 10⟩ "a" 6
        ⟨fun k => if k = "a" then [5] else [], [5]⟩).1.allowed = false
    ∧ (attempt ⟨1, 1, 10⟩ "a" 6
        ⟨fun k => if k = "a" then [5] else [], [5]⟩).2.perKey "a" = [5]
    ∧ (attempt ⟨1, 1, 10⟩ "a" 6
        ⟨fun k => if k = "a" then [5] else [], [5]⟩).2.global = [5] := by
  have hreject : (attempt ⟨1, 1, 10⟩ "a" 6
      ⟨fun k => if k = "a" then [5] else [], [5]⟩).1.allowed = false := rfl
  have h := attempt_reject_spec ⟨1, 1, 10⟩ "a" 6
    ⟨fun k => if k = "a" then [5] else [], [5]⟩ hreject
    (by intro k; by_cases hk : k = "a" <;> simp [hk])
    (by simp)
  exact ⟨hreject, by rw [h.2.1 "a"]; decide, by rw [h.2.2]; decide⟩

end CharlieBull
